import Mathlib

/-!
Shallow embedding of the pagination and image-resolution engine of the
manual-generator repository (`src/unnamed/part_001` and `src/app/page.tsx`).

Strings are modelled as `List Char` (`Str`), JavaScript numbers that only
ever hold integer values are modelled as `Nat`, and JavaScript `Map`s are
modelled by association-style lookups on lists.  Regular-expression tests
from the source are translated into equivalent executable scanners over
character lists; the derivation of each scanner from its regex is noted at
its definition.
-/

/-- Strings of the modelled program, as lists of characters. -/
abbrev Str := List Char

/-- Characters matched by JavaScript's `\s` class and removed by
`String.prototype.trim` (WhiteSpace and LineTerminator code points). -/
def isJsSpace (c : Char) : Bool :=
  c = ' ' || c = '\t' || c = '\n' || c = '\r' ||
  c.toNat = 0x0b || c.toNat = 0x0c || c.toNat = 0xa0 || c.toNat = 0x1680 ||
  (0x2000 ≤ c.toNat && c.toNat ≤ 0x200a) ||
  c.toNat = 0x2028 || c.toNat = 0x2029 || c.toNat = 0x202f ||
  c.toNat = 0x205f || c.toNat = 0x3000 || c.toNat = 0xfeff

/-- Model of JavaScript `String.prototype.trim`: strip `\s` characters from
both ends. -/
def trimStr (s : Str) : Str :=
  ((s.dropWhile isJsSpace).reverse.dropWhile isJsSpace).reverse

/-- Model of JavaScript `s.split('\n')`: always returns at least one
(possibly empty) piece. -/
def splitLines : Str → List Str
  | [] => [[]]
  | c :: r =>
    if c = '\n' then [] :: splitLines r
    else
      match splitLines r with
      | l :: ls => (c :: l) :: ls
      | [] => [[c]]

/-- Model of JavaScript `lines.join('\n')`. -/
def joinLines : List Str → Str
  | [] => []
  | [l] => l
  | l :: ls => l ++ '\n' :: joinLines ls

/-- Scanner for the `.*?\)` tail of the image-reference regex
`/!\[.*?\]\(.*?\)/`: succeeds iff a `)` occurs before any newline
(JavaScript `.` does not match a newline). -/
def scanParen : Str → Bool
  | [] => false
  | c :: r => if c = '\n' then false else if c = ')' then true else scanParen r

/-- Scanner for the `.*?\]\(.*?\)` part of `/!\[.*?\]\(.*?\)/` starting just
after `![`: looks for `](` with no interposed newline, then a `)`; on
failure of the tail the `]` is absorbed into the `.*?` (regex
backtracking). -/
def scanCO : Str → Bool
  | [] => false
  | c :: r =>
    if c = '\n' then false
    else if c = ']' then
      match r with
      | '(' :: r2 => scanParen r2 || scanCO r
      | _ => scanCO r
    else scanCO r

/-- Model of `mdHasImageRefs`, i.e. `/!\[.*?\]\(.*?\)/.test(markdownContent)`
(part_001 lines 72-74): some position starts a full `![...](...)` match. -/
def hasImageRef : Str → Bool
  | [] => false
  | c :: r =>
    (if c = '!' then
      match r with
      | '[' :: r2 => scanCO r2
      | _ => false
     else false) || hasImageRef r

/-- An uploaded screenshot: `{ name, dataUrl }` (the `file` handle carries no
further information used by the modelled core). -/
structure ImageFile where
  name : Str
  dataUrl : Str
deriving DecidableEq

/-- A recorded heading: `{ lineIndex, key, level }` (part_001 line 87). -/
structure MdSection where
  lineIndex : Nat
  key : Str
  level : Nat
deriving DecidableEq

/-- Model of the `h2Match` test `/^## (\d+)\.\s/` (part_001 line 89): on
success the key is the raw captured digit string. A greedy `(\d+)` followed
by the literal `.` admits no backtracking, so the digit run is maximal. -/
def parseH2Key (line : Str) : Option Str :=
  match line with
  | '#' :: '#' :: ' ' :: r =>
    let ds := r.takeWhile Char.isDigit
    if ds.isEmpty then none
    else
      match r.dropWhile Char.isDigit with
      | '.' :: c :: _ => if isJsSpace c then some ds else none
      | _ => none
  | _ => none

/-- Fold a digit run into the number `parseInt` would produce. -/
def digitsToNat (ds : Str) : Nat :=
  ds.foldl (fun n c => n * 10 + (c.toNat - 48)) 0

/-- Decimal string of a `Nat`, as `Number.prototype.toString` produces for
the integers arising here. -/
def natKeyStr (n : Nat) : Str := (Nat.repr n).data

/-- Model of the `h3Match` test `/^### (\d+)[-.](\d+)/` (part_001 line 90):
the key is `parseInt(g1) + "." + parseInt(g2)` (part_001 line 96). -/
def parseH3Key (line : Str) : Option Str :=
  match line with
  | '#' :: '#' :: '#' :: ' ' :: r =>
    let d1 := r.takeWhile Char.isDigit
    if d1.isEmpty then none
    else
      match r.dropWhile Char.isDigit with
      | c :: r2 =>
        if c = '-' || c = '.' then
          let d2 := r2.takeWhile Char.isDigit
          if d2.isEmpty then none
          else some (natKeyStr (digitsToNat d1) ++ '.' :: natKeyStr (digitsToNat d2))
        else none
      | [] => none
  | _ => none

/-- One step of the heading scan (part_001 lines 88-100): `h2Match` is tried
before `h3Match`. -/
def lineToSection (p : Nat × Str) : Option MdSection :=
  match parseH2Key p.2 with
  | some k => some ⟨p.1, k, 2⟩
  | none =>
    match parseH3Key p.2 with
    | some k => some ⟨p.1, k, 3⟩
    | none => none

/-- The `sections` array built by `lines.forEach((line, index) => ...)`
(part_001 lines 87-100). -/
def detectSections (lines : List Str) : List MdSection :=
  lines.enum.filterMap lineToSection

/-- Tokenization of a filename for the numeric-aware comparison: maximal
digit runs become one token each, every other character is its own token. -/
def numTokens : Str → List (Sum Str Char)
  | [] => []
  | c :: r =>
    if c.isDigit then
      match numTokens r with
      | Sum.inl ds :: ts => Sum.inl (c :: ds) :: ts
      | ts => Sum.inl [c] :: ts
    else Sum.inr c :: numTokens r

/-- Comparison of two tokens: digit runs by numeric value, characters by
code point; a digit run against a character compares by the run's first
code point. -/
def tokenCmp : Sum Str Char → Sum Str Char → Ordering
  | Sum.inl ds, Sum.inl es => compare (digitsToNat ds) (digitsToNat es)
  | Sum.inl ds, Sum.inr e => compare (ds.headD '0').toNat e.toNat
  | Sum.inr d, Sum.inl es => compare d.toNat (es.headD '0').toNat
  | Sum.inr d, Sum.inr e => compare d.toNat e.toNat

/-- Lexicographic comparison of token lists (a proper prefix is smaller). -/
def cmpTokens : List (Sum Str Char) → List (Sum Str Char) → Ordering
  | [], [] => .eq
  | [], _ :: _ => .lt
  | _ :: _, [] => .gt
  | t :: ts, u :: us =>
    match tokenCmp t u with
    | .eq => cmpTokens ts us
    | o => o

/-- Model of `a.name.localeCompare(b.name, 'ja', { numeric: true })`
(part_001 lines 110-112): digit runs compare by numeric value, other
characters by code point; on a tie comparison continues after the runs. -/
def numericCmp (a b : Str) : Ordering :=
  cmpTokens (numTokens a) (numTokens b)

/-- Stable insertion of one screenshot into an already-sorted list. -/
def orderedInsertShot (le : ImageFile → ImageFile → Bool) (a : ImageFile) :
    List ImageFile → List ImageFile
  | [] => [a]
  | b :: l => if le a b then a :: b :: l else b :: orderedInsertShot le a l

/-- The `sortedScreenshots` array (part_001 lines 110-112); a stable sort
(insertion sort), as specified for `Array.prototype.sort`. -/
def sortScreenshots (shots : List ImageFile) : List ImageFile :=
  shots.foldr (orderedInsertShot (fun a b => numericCmp a.name b.name != Ordering.gt)) []

/-- Model of the filename-number extraction `^0*(\d+)[-_.](?:0*(\d+)[-_.])?`
(part_001 line 115).  `0*(\d+)` forces the whole leading digit run (whose
`parseInt` value is independent of how `0*` and `(\d+)` split it) to be
followed by one of `-`, `_`, `.`; the optional minor group repeats the shape
and is skipped when it cannot match. -/
def extractShotKey (name : Str) : Option (Nat × Option Nat) :=
  let d1 := name.takeWhile Char.isDigit
  if d1.isEmpty then none
  else
    match name.dropWhile Char.isDigit with
    | c :: r =>
      if c = '-' || c = '_' || c = '.' then
        let maj := digitsToNat d1
        let d2 := r.takeWhile Char.isDigit
        if d2.isEmpty then some (maj, none)
        else
          match r.dropWhile Char.isDigit with
          | c2 :: _ =>
            if c2 = '-' || c2 = '_' || c2 = '.' then some (maj, some (digitsToNat d2))
            else some (maj, none)
          | [] => some (maj, none)
      else none
    | [] => none

/-- The string `parseInt(match[1]).toString()` (part_001 line 117). -/
def majorKeyStr (m : Nat) : Str := natKeyStr m

/-- The exact key `` `${major}.${minor}` `` (part_001 line 119). -/
def exactKeyStr (m n : Nat) : Str := natKeyStr m ++ '.' :: natKeyStr n

/-- Test `sections.find(s => s.key === k)` returned a hit (part_001 lines
122 and 127). -/
def hasKey (secs : List MdSection) (k : Str) : Bool :=
  secs.any (fun s => s.key == k)

/-- The branch structure of part_001 lines 114-137 for one screenshot:
`some k` means the asset is pushed onto `screenshotsByKey` under `k`,
`none` that it joins `unmatchedScreenshots`. -/
def classifyScreenshot (secs : List MdSection) (name : Str) : Option Str :=
  match extractShotKey name with
  | none => none
  | some (maj, mio) =>
    match mio with
    | some mi =>
      if hasKey secs (exactKeyStr maj mi) then some (exactKeyStr maj mi)
      else if hasKey secs (majorKeyStr maj) then some (majorKeyStr maj)
      else none
    | none =>
      if hasKey secs (majorKeyStr maj) then some (majorKeyStr maj)
      else none

/-- The bucket `screenshotsByKey.get(k)` as a function of the sorted asset
list: assets are appended to their bucket in sorted order, so a bucket is
the sorted sublist of assets classified to its key. -/
def bucketFor (secs : List MdSection) (sorted : List ImageFile) (k : Str) : List ImageFile :=
  sorted.filter (fun img => classifyScreenshot secs img.name == some k)

/-- The `unmatchedScreenshots` array (part_001 lines 108, 132, 135). -/
def unmatchedOf (secs : List MdSection) (sorted : List ImageFile) : List ImageFile :=
  sorted.filter (fun img => (classifyScreenshot secs img.name).isNone)

/-- One spliced element `` `\n![${img.name}](${img.name})\n` `` (part_001
line 161). -/
def imgLine (img : ImageFile) : Str :=
  '\n' :: '!' :: '[' :: (img.name ++ ']' :: '(' :: (img.name ++ [')', '\n']))

/-- The trimmed content of a `---` separator line. -/
def sepDashes : Str := ['-', '-', '-']

/-- The backtracking loop of part_001 lines 150-156: scan `j` downward from
`nextIdx - 1` while `j > secIdx`, and move the insertion point to the first
`j` whose line trims to `---`. -/
def backtrackSep (result : List Str) (secIdx nextIdx : Nat) : Nat :=
  match (List.range' (secIdx + 1) (nextIdx - (secIdx + 1))).reverse.find?
      (fun j => trimStr (result.getD j []) == sepDashes) with
  | some j => j
  | none => nextIdx

/-- Model of `result.splice(p, 0, ...block)`. -/
def insertAtPos (l : List Str) (p : Nat) (block : List Str) : List Str :=
  l.take p ++ block ++ l.drop p

/-- The body of one iteration of the reverse splicing loop (part_001 lines
143-162): skip a section whose bucket is empty (`continue`), otherwise
insert its image lines just before the next section's line (backtracked past
a `---`-only line) or at the end of the current `result`. -/
def spliceStep (secs : List MdSection) (bucket : Str → List ImageFile)
    (i : Nat) (result : List Str) : List Str :=
  match secs[i]? with
  | none => result
  | some sec =>
    let matched := bucket sec.key
    if matched.isEmpty then result
    else
      let insertAt :=
        match secs[i + 1]? with
        | some next => backtrackSep result sec.lineIndex next.lineIndex
        | none => result.length
      insertAtPos result insertAt (matched.map imgLine)

/-- The reverse splicing loop of part_001 lines 142-163, processing the
supplied section indices in order (the caller passes them in descending
order). -/
def spliceRev (secs : List MdSection) (bucket : Str → List ImageFile) :
    List Nat → List Str → List Str
  | [], result => result
  | i :: is, result => spliceRev secs bucket is (spliceStep secs bucket i result)

/-- The element `'\n---\n'` pushed at part_001 line 167. -/
def sepLineEl : Str := ['\n', '-', '-', '-', '\n']

/-- The element `'## 参考スクリーンショット\n'` pushed at part_001 line 168. -/
def refHeadingEl : Str := "## 参考スクリーンショット\n".data

/-- The Auto-Linker `processedMarkdown` (part_001 lines 77-175): identity
when image syntax is present, no screenshot is uploaded, the markdown is
empty, or no numbered heading is recorded; otherwise buckets the sorted
screenshots, splices matched buckets from the last section to the first,
appends unmatched assets under a reference heading, and rejoins the lines. -/
def processedMarkdown (md : Str) (shots : List ImageFile) : Str :=
  if hasImageRef md || shots.isEmpty || md.isEmpty then md
  else if (detectSections (splitLines md)).isEmpty then md
  else
    joinLines
      (spliceRev (detectSections (splitLines md))
          (bucketFor (detectSections (splitLines md)) (sortScreenshots shots))
          ((List.range (detectSections (splitLines md)).length).reverse) (splitLines md) ++
        (if (unmatchedOf (detectSections (splitLines md)) (sortScreenshots shots)).isEmpty
         then []
         else sepLineEl :: refHeadingEl ::
           (unmatchedOf (detectSections (splitLines md)) (sortScreenshots shots)).map imgLine))

/-! Specification-side description of the splicing, written from the spec's
words: for each heading with a non-empty bucket the insertion point is
computed on the ORIGINAL line list (just before the next heading's line,
backtracked past an intervening separator-only line, or end-of-document for
the last heading), and all blocks are inserted simultaneously. -/

/-- The insertion point the spec describes for section `i`, computed on the
original lines. -/
def insertPosSpec (lines : List Str) (secs : List MdSection) (i : Nat) : Nat :=
  match secs[i]?, secs[i + 1]? with
  | some sec, some next => backtrackSep lines sec.lineIndex next.lineIndex
  | _, _ => lines.length

/-- The insertion (position, block of image lines) contributed by section
index `i`, if its bucket is non-empty. -/
def insFn (lines : List Str) (secs : List MdSection) (bucket : Str → List ImageFile)
    (i : Nat) : Option (Nat × List Str) :=
  match secs[i]? with
  | none => none
  | some sec =>
    if (bucket sec.key).isEmpty then none
    else some (insertPosSpec lines secs i, (bucket sec.key).map imgLine)

/-- All insertions, in section (hence ascending-position) order. -/
def autoLinkInserts (lines : List Str) (secs : List MdSection)
    (bucket : Str → List ImageFile) : List (Nat × List Str) :=
  (List.range secs.length).filterMap (insFn lines secs bucket)

/-- The insertions contributed by the sections with index `≥ m`. -/
def autoLinkInsertsFrom (lines : List Str) (secs : List MdSection)
    (bucket : Str → List ImageFile) (m : Nat) : List (Nat × List Str) :=
  (List.range' m (secs.length - m)).filterMap (insFn lines secs bucket)

/-- Simultaneous insertion of blocks at the given positions of the original
list: with positions in ascending order, later insertions (applied first by
the `foldr`) never disturb earlier positions. -/
def multiInsert (lines : List Str) (ins : List (Nat × List Str)) : List Str :=
  ins.foldr (fun pb acc => insertAtPos acc pb.1 pb.2) lines

/-! The height-aware Paginator of `generatePDF` (part_001 lines 228-293). -/

/-- A flattened top-level rendered node `{ tag, html, isImage }` (part_001
line 228). -/
structure PageNode where
  tag : Str
  html : Str
  isImage : Bool
deriving DecidableEq

/-- The page content height budget (part_001 line 240). -/
def MAX_PAGE_HEIGHT : Nat := 880

/-- Scanner state machine behind `stripTags`: outside a candidate tag, a `<`
opens one (stashing the consumed characters in reverse in case it is never
closed); inside, the first `>` discards the stash (the tag matched), and
end-of-input emits the stash verbatim (a `<` with no later `>` is not a
regex match and stays). -/
def stripGo : Bool → Str → Str → Str
  | false, _, [] => []
  | false, _, '<' :: r => stripGo true ['<'] r
  | false, _, c :: r => c :: stripGo false [] r
  | true, stash, [] => stash.reverse
  | true, _, '>' :: r => stripGo false [] r
  | true, stash, c :: r => stripGo true (c :: stash) r

/-- Model of `html.replace(/<[^>]*>/g, '')` (part_001 line 248): each `<`
that is followed by a later `>` is removed together with everything up to
that first `>`; a `<` with no subsequent `>` stays. -/
def stripTags (s : Str) : Str := stripGo false [] s

/-- Model of `(html.match(/<li/g) || []).length` (part_001 line 252):
the number of (non-overlapping) occurrences of `<li`. -/
def countLi : Str → Nat
  | '<' :: 'l' :: 'i' :: r => countLi r + 1
  | _ :: r => countLi r
  | [] => 0

/-- The per-tag height heuristic `estimateHeight` (part_001 lines 242-256). -/
def estimateHeight (n : PageNode) : Nat :=
  if n.isImage then 400
  else if n.tag = "H1".data then 50
  else if n.tag = "H2".data then 45
  else if n.tag = "H3".data then 35
  else if n.tag = "P".data then
    max 25 (((stripTags n.html).length + 59) / 60 * 20)
  else if n.tag = "UL".data || n.tag = "OL".data then
    max 30 (countLi n.html * 22)
  else 25

/-- Model of `/^<h[1-4][^>]*>[\s\S]*<\/h[1-4]>$/i.test(s)` (part_001 line
279): the string starts with an `<h1>`-`<h4>` opening tag (whose `>` is the
first `>` after the tag name) and ends with a matching-level-range closing
tag; `[\s\S]*` lets the middle be arbitrary. -/
def isOnlyHeading (s : Str) : Bool :=
  match s with
  | '<' :: c1 :: c2 :: rest =>
    (c1 = 'h' || c1 = 'H') && ('1' ≤ c2 && c2 ≤ '4') &&
    (match rest.dropWhile (fun c => !(c == '>')) with
     | [] => false
     | _ :: mid =>
       match mid.reverse with
       | '>' :: d :: h :: '/' :: '<' :: _ =>
         (h = 'h' || h = 'H') && ('1' ≤ d && d ≤ '4')
       | _ => false)
  | _ => false

/-- The mutable loop state of the section-splitting loop (part_001 lines
259-261). -/
structure PagState where
  sections : List Str
  cur : Str
  height : Nat
deriving DecidableEq

/-- One iteration of `nodes.forEach` (part_001 lines 263-289): an `H2` with
non-blank accumulated content flushes and restarts the page; otherwise the
page is flushed before appending exactly when the estimated height budget is
exceeded, the accumulated content is non-blank, and it is not only a
heading. -/
def pagStep (st : PagState) (n : PageNode) : PagState :=
  if n.tag = "H2".data ∧ trimStr st.cur ≠ [] then
    { sections := st.sections ++ [st.cur], cur := n.html, height := estimateHeight n }
  else if st.height + estimateHeight n > MAX_PAGE_HEIGHT ∧ trimStr st.cur ≠ [] ∧
      isOnlyHeading (trimStr st.cur) = false then
    -- flush, then append the node to the fresh page
    { sections := st.sections ++ [st.cur], cur := n.html, height := estimateHeight n }
  else
    { sections := st.sections, cur := st.cur ++ n.html,
      height := st.height + estimateHeight n }

/-- The full pagination (part_001 lines 258-293): fold the nodes and flush a
final non-blank page. -/
def paginate (nodes : List PageNode) : List Str :=
  if trimStr (nodes.foldl pagStep ⟨[], [], 0⟩).cur ≠ [] then
    (nodes.foldl pagStep ⟨[], [], 0⟩).sections ++ [(nodes.foldl pagStep ⟨[], [], 0⟩).cur]
  else (nodes.foldl pagStep ⟨[], [], 0⟩).sections

/-! The Reference Resolver and the image renderer. -/

/-- Model of `src.split('/').pop()`: the final path segment (everything
after the last `/`; the whole string when there is no `/`). -/
def basename (s : Str) : Str :=
  (s.reverse.takeWhile (fun c => !(c == '/'))).reverse

/-- Lookup in the `imageMap` built by `screenshots.forEach((img) =>
map.set(img.name, img.dataUrl))` (part_001 lines 65-69): on a name
collision the later `set` wins, so the last occurrence is found. -/
def imageMapGet (imgs : List ImageFile) (name : Str) : Option Str :=
  (imgs.reverse.find? (fun i => i.name == name)).map (fun i => i.dataUrl)

/-- The `resolveImageSrc` callback of `src/app/page.tsx` lines 66-73:
basename extraction, falsy-filename guard, map lookup with `|| null` (which
also turns an empty-string data URL into `null`). -/
def resolveImageSrc (imgs : List ImageFile) (src : Str) : Option Str :=
  if (basename src).isEmpty then none
  else
    match imageMapGet imgs (basename src) with
    | some v => if v.isEmpty then none else some v
    | none => none

/-- What the custom `img` component renders. -/
inductive Rendered where
  | nothing
  | image (src alt : Str)
  | placeholder (fileName : Str)
deriving DecidableEq

/-- The `img` renderer of `markdownComponents` (part_001 lines 178-200): a
falsy `src` renders nothing; a resolvable basename renders the resolved
image; otherwise a visible placeholder carrying the basename is rendered
(`imageMap.get(fileName) || null` also sends an empty data URL to the
placeholder branch). -/
def renderImg (imgs : List ImageFile) (src alt : Str) : Rendered :=
  if src.isEmpty then .nothing
  else
    match imageMapGet imgs (basename src) with
    | some v => if v.isEmpty then .placeholder (basename src) else .image v alt
    | none => .placeholder (basename src)

/-- Specification-side description of the Auto-Linker output's main part:
the original lines with each non-empty bucket's image lines inserted
simultaneously at the spec-described positions. -/
def mainSpliced (md : Str) (shots : List ImageFile) : List Str :=
  multiInsert (splitLines md)
    (autoLinkInserts (splitLines md) (detectSections (splitLines md))
      (bucketFor (detectSections (splitLines md)) (sortScreenshots shots)))

/-- The trailing appendix elements for unmatched assets (empty when every
asset matched). -/
def appendixEls (md : Str) (shots : List ImageFile) : List Str :=
  if (unmatchedOf (detectSections (splitLines md)) (sortScreenshots shots)).isEmpty then []
  else sepLineEl :: refHeadingEl ::
    (unmatchedOf (detectSections (splitLines md)) (sortScreenshots shots)).map imgLine

/-- The sorted assets that were bucketed under some heading key. -/
def matchedAssets (md : Str) (shots : List ImageFile) : List ImageFile :=
  (sortScreenshots shots).filter
    (fun img => (classifyScreenshot (detectSections (splitLines md)) img.name).isSome)

/-! Supporting lemmas. -/

theorem trimStr_eq_nil_iff (s : Str) : trimStr s = [] ↔ ∀ c ∈ s, isJsSpace c = true := by
  unfold trimStr
  rw [List.reverse_eq_nil_iff, List.dropWhile_eq_nil_iff]
  constructor
  · intro h c hc
    have hsplit : c ∈ s.takeWhile isJsSpace ++ s.dropWhile isJsSpace := by
      rw [List.takeWhile_append_dropWhile]; exact hc
    rcases List.mem_append.1 hsplit with h1 | h1
    · exact List.mem_takeWhile_imp h1
    · exact h c (List.mem_reverse.2 h1)
  · intro h c hc
    exact h c (List.dropWhile_subset isJsSpace (List.mem_reverse.1 hc))

theorem trimStr_append_ne (a b : Str) (hb : trimStr b ≠ []) : trimStr (a ++ b) ≠ [] := by
  intro h
  exact hb ((trimStr_eq_nil_iff b).2 fun c hc =>
    (trimStr_eq_nil_iff (a ++ b)).1 h c (List.mem_append.2 (Or.inr hc)))

theorem mem_enumFrom_bounds {α : Type} :
    ∀ (n : Nat) (l : List α) (p : Nat × α), p ∈ List.enumFrom n l → n ≤ p.1 ∧ p.1 < n + l.length
  | _, [], _, h => by simp [List.enumFrom] at h
  | n, a :: l, p, h => by
    rcases (List.mem_cons.1 h) with h1 | h1
    · subst h1; simp
    · have := mem_enumFrom_bounds (n + 1) l p h1
      constructor
      · omega
      · simp only [List.length_cons]; omega

theorem enumFrom_pairwise_fst {α : Type} :
    ∀ (n : Nat) (l : List α), (List.enumFrom n l).Pairwise (fun a b => a.1 < b.1)
  | _, [] => List.Pairwise.nil
  | n, a :: l => by
    refine List.Pairwise.cons ?_ (enumFrom_pairwise_fst (n + 1) l)
    intro p hp
    have := (mem_enumFrom_bounds (n + 1) l p hp).1
    simpa using by omega

theorem lineToSection_fst {p : Nat × Str} {s : MdSection}
    (h : lineToSection p = some s) : s.lineIndex = p.1 := by
  unfold lineToSection at h
  rcases h2 : parseH2Key p.2 with _ | k <;> rw [h2] at h
  · rcases h3 : parseH3Key p.2 with _ | k <;> rw [h3] at h
    · simp at h
    · simp at h; rw [← h]
  · simp at h; rw [← h]

theorem detectSections_pairwise (lines : List Str) :
    (detectSections lines).Pairwise (fun s t => s.lineIndex < t.lineIndex) := by
  unfold detectSections
  refine List.Pairwise.filterMap lineToSection ?_ (enumFrom_pairwise_fst 0 lines)
  intro a a' hlt b hb b' hb'
  rw [lineToSection_fst (Option.mem_def.1 hb), lineToSection_fst (Option.mem_def.1 hb')]
  exact hlt

theorem detectSections_lt_length (lines : List Str) :
    ∀ s ∈ detectSections lines, s.lineIndex < lines.length := by
  intro s hs
  unfold detectSections at hs
  rcases List.mem_filterMap.1 hs with ⟨p, hp, hps⟩
  rw [lineToSection_fst hps]
  have := (mem_enumFrom_bounds 0 lines p hp).2
  simpa [List.enum] using this

theorem pairwise_getElem?_rel {α : Type} {R : α → α → Prop} {l : List α}
    (h : l.Pairwise R) {i j : Nat} {a b : α}
    (ha : l[i]? = some a) (hb : l[j]? = some b) (hij : i < j) : R a b := by
  rcases List.getElem?_eq_some.1 ha with ⟨hi, rfl⟩
  rcases List.getElem?_eq_some.1 hb with ⟨hj, rfl⟩
  exact List.pairwise_iff_getElem.1 h i j hi hj hij

theorem mem_of_getElem?_eq_some {α : Type} {l : List α} {i : Nat} {a : α}
    (h : l[i]? = some a) : a ∈ l := by
  rcases List.getElem?_eq_some.1 h with ⟨hi, rfl⟩
  exact List.getElem_mem hi

theorem find?_congr_pred {α : Type} {p q : α → Bool} (l : List α)
    (hpq : ∀ x ∈ l, p x = q x) : l.find? p = l.find? q := by
  induction l with
  | nil => rfl
  | cons a t ih =>
    have ha := hpq a (List.mem_cons_self a t)
    by_cases hp : p a = true
    · rw [List.find?_cons_of_pos _ hp, List.find?_cons_of_pos _ (ha ▸ hp)]
    · rw [List.find?_cons_of_neg _ hp, List.find?_cons_of_neg _ (by rw [← ha]; exact hp)]
      exact ih fun x hx => hpq x (List.mem_cons_of_mem a hx)

theorem backtrackSep_bounds (R : List Str) (a b : Nat) (hab : a < b) :
    a < backtrackSep R a b ∧ backtrackSep R a b ≤ b := by
  unfold backtrackSep
  rcases hf : (List.range' (a + 1) (b - (a + 1))).reverse.find?
      (fun j => trimStr (R.getD j []) == sepDashes) with _ | j
  · show a < b ∧ b ≤ b
    omega
  · have hj : j ∈ List.range' (a + 1) (b - (a + 1)) :=
      List.mem_reverse.1 (List.mem_of_find?_eq_some hf)
    have := List.mem_range'_1.1 hj
    show a < j ∧ j ≤ b
    omega

theorem backtrackSep_congr (R R2 : List Str) (a b : Nat)
    (h : ∀ j, a < j → j < b → R.getD j [] = R2.getD j []) :
    backtrackSep R a b = backtrackSep R2 a b := by
  unfold backtrackSep
  have heq : (List.range' (a + 1) (b - (a + 1))).reverse.find?
        (fun j => trimStr (R.getD j []) == sepDashes)
      = (List.range' (a + 1) (b - (a + 1))).reverse.find?
        (fun j => trimStr (R2.getD j []) == sepDashes) := by
    apply find?_congr_pred
    intro j hj
    have hj2 := List.mem_range'_1.1 (List.mem_reverse.1 hj)
    rw [h j (by omega) (by omega)]
  rw [heq]

theorem insertAtPos_length (L : List Str) (p : Nat) (b : List Str) :
    (insertAtPos L p b).length = L.length + b.length := by
  unfold insertAtPos
  simp only [List.length_append, List.length_take, List.length_drop]
  omega

theorem multiInsert_cons (L : List Str) (pb : Nat × List Str) (ins : List (Nat × List Str)) :
    multiInsert L (pb :: ins) = insertAtPos (multiInsert L ins) pb.1 pb.2 := rfl

theorem multiInsert_length (L : List Str) :
    ∀ ins : List (Nat × List Str), L.length ≤ (multiInsert L ins).length
  | [] => Nat.le_refl _
  | pb :: ins => by
    rw [multiInsert_cons, insertAtPos_length]
    have := multiInsert_length L ins
    omega

theorem insertAtPos_getElem?_lt (L : List Str) (p : Nat) (b : List Str) (j : Nat)
    (hjp : j < p) (hjL : j < L.length) : (insertAtPos L p b)[j]? = L[j]? := by
  unfold insertAtPos
  rw [List.append_assoc, List.getElem?_append,
    if_pos (by simp only [List.length_take]; omega), List.getElem?_take, if_pos hjp]

theorem multiInsert_getElem?_lt (L : List Str) (q : Nat) :
    ∀ (ins : List (Nat × List Str)), (∀ pb ∈ ins, q ≤ pb.1) →
    ∀ j, j < q → j < L.length → (multiInsert L ins)[j]? = L[j]?
  | [], _, _, _, _ => rfl
  | pb :: ins, h, j, hjq, hjL => by
    rw [multiInsert_cons,
      insertAtPos_getElem?_lt _ _ _ _
        (by
          have := h pb (List.mem_cons_self pb ins)
          omega)
        (by
          have := multiInsert_length L ins
          omega),
      multiInsert_getElem?_lt L q ins (fun x hx => h x (List.mem_cons_of_mem pb hx)) j hjq hjL]

theorem insertPosSpec_none (lines : List Str) (secs : List MdSection)
    {i : Nat} {sec : MdSection} (hi : secs[i]? = some sec)
    (hnext : secs[i + 1]? = none) : insertPosSpec lines secs i = lines.length := by
  unfold insertPosSpec
  rw [hi, hnext]

theorem insertPosSpec_some (lines : List Str) (secs : List MdSection)
    {i : Nat} {sec next : MdSection} (hi : secs[i]? = some sec)
    (hnext : secs[i + 1]? = some next) :
    insertPosSpec lines secs i = backtrackSep lines sec.lineIndex next.lineIndex := by
  unfold insertPosSpec
  rw [hi, hnext]

theorem insertPosSpec_gt (lines : List Str) (secs : List MdSection)
    (hp : secs.Pairwise (fun s t => s.lineIndex < t.lineIndex))
    (hb : ∀ s ∈ secs, s.lineIndex < lines.length)
    {i : Nat} {sec : MdSection} (hi : secs[i]? = some sec) :
    sec.lineIndex < insertPosSpec lines secs i := by
  rcases hnext : secs[i + 1]? with _ | next
  · rw [insertPosSpec_none lines secs hi hnext]
    exact hb sec (mem_of_getElem?_eq_some hi)
  · rw [insertPosSpec_some lines secs hi hnext]
    exact (backtrackSep_bounds lines sec.lineIndex next.lineIndex
      (pairwise_getElem?_rel hp hi hnext (Nat.lt_succ_self i))).1

theorem insertPosSpec_le_next (lines : List Str) (secs : List MdSection)
    {i : Nat} {sec next : MdSection} (hi : secs[i]? = some sec)
    (hnext : secs[i + 1]? = some next) (hlt : sec.lineIndex < next.lineIndex) :
    insertPosSpec lines secs i ≤ next.lineIndex := by
  rw [insertPosSpec_some lines secs hi hnext]
  exact (backtrackSep_bounds lines _ _ hlt).2

theorem insFn_none (lines : List Str) (secs : List MdSection)
    (bucket : Str → List ImageFile) {i : Nat} {sec : MdSection}
    (hi : secs[i]? = some sec) (hbe : (bucket sec.key).isEmpty = true) :
    insFn lines secs bucket i = none := by
  unfold insFn
  rw [hi]
  show (if (bucket sec.key).isEmpty = true then none
    else some (insertPosSpec lines secs i, (bucket sec.key).map imgLine)) = none
  rw [if_pos hbe]

theorem insFn_some (lines : List Str) (secs : List MdSection)
    (bucket : Str → List ImageFile) {i : Nat} {sec : MdSection}
    (hi : secs[i]? = some sec) (hbe : (bucket sec.key).isEmpty = false) :
    insFn lines secs bucket i
      = some (insertPosSpec lines secs i, (bucket sec.key).map imgLine) := by
  unfold insFn
  rw [hi]
  show (if (bucket sec.key).isEmpty = true then none
    else some (insertPosSpec lines secs i, (bucket sec.key).map imgLine)) = _
  rw [if_neg (by simp [hbe])]

theorem insFn_eq_some {lines : List Str} {secs : List MdSection}
    {bucket : Str → List ImageFile} {i : Nat} {pb : Nat × List Str}
    (h : insFn lines secs bucket i = some pb) :
    ∃ sec, secs[i]? = some sec ∧ (bucket sec.key).isEmpty = false ∧
      pb = (insertPosSpec lines secs i, (bucket sec.key).map imgLine) := by
  rcases hsec : secs[i]? with _ | sec
  · unfold insFn at h
    rw [hsec] at h
    simp at h
  · rcases hbe : (bucket sec.key).isEmpty with _ | _
    · rw [insFn_some lines secs bucket hsec hbe] at h
      exact ⟨sec, rfl, hbe, (Option.some.inj h).symm⟩
    · rw [insFn_none lines secs bucket hsec hbe] at h
      simp at h

theorem mem_autoLinkInsertsFrom {lines : List Str} {secs : List MdSection}
    {bucket : Str → List ImageFile} {m : Nat} {pb : Nat × List Str}
    (h : pb ∈ autoLinkInsertsFrom lines secs bucket m) :
    ∃ i, m ≤ i ∧ i < secs.length ∧ insFn lines secs bucket i = some pb := by
  unfold autoLinkInsertsFrom at h
  rcases List.mem_filterMap.1 h with ⟨i, hi, hins⟩
  have := List.mem_range'_1.1 hi
  exact ⟨i, by omega, by omega, hins⟩

theorem autoLinkInsertsFrom_pos (lines : List Str) (secs : List MdSection)
    (bucket : Str → List ImageFile)
    (hp : secs.Pairwise (fun s t => s.lineIndex < t.lineIndex))
    (hb : ∀ s ∈ secs, s.lineIndex < lines.length)
    {m : Nat} {sm : MdSection} (hm : secs[m]? = some sm) :
    ∀ pb ∈ autoLinkInsertsFrom lines secs bucket m, sm.lineIndex < pb.1 := by
  intro pb hpb
  rcases mem_autoLinkInsertsFrom hpb with ⟨i, hmi, _hik, hins⟩
  rcases insFn_eq_some hins with ⟨sec, hsec, _, rfl⟩
  have h1 : sec.lineIndex < insertPosSpec lines secs i := insertPosSpec_gt lines secs hp hb hsec
  have h2 : sm.lineIndex ≤ sec.lineIndex := by
    rcases Nat.eq_or_lt_of_le hmi with rfl | hlt
    · rw [hm] at hsec
      injection hsec with h3
      rw [h3]
    · exact Nat.le_of_lt (pairwise_getElem?_rel hp hm hsec hlt)
  exact Nat.lt_of_le_of_lt h2 h1

theorem range_reverse_succ (m : Nat) :
    (List.range (m + 1)).reverse = m :: (List.range m).reverse := by
  rw [List.range_succ, List.reverse_append]
  rfl

theorem insertsFrom_decomp (lines : List Str) (secs : List MdSection)
    (bucket : Str → List ImageFile) {m : Nat} (hm : m < secs.length) :
    autoLinkInsertsFrom lines secs bucket m =
      (match insFn lines secs bucket m with
       | some pb => pb :: autoLinkInsertsFrom lines secs bucket (m + 1)
       | none => autoLinkInsertsFrom lines secs bucket (m + 1)) := by
  unfold autoLinkInsertsFrom
  have h1 : secs.length - m = (secs.length - (m + 1)) + 1 := by omega
  rw [h1, List.range'_succ, List.filterMap_cons]
  rcases insFn lines secs bucket m with _ | pb <;> rfl

theorem insertsFrom_self (lines : List Str) (secs : List MdSection)
    (bucket : Str → List ImageFile) :
    autoLinkInsertsFrom lines secs bucket secs.length = [] := by
  unfold autoLinkInsertsFrom
  simp

theorem spliceStep_skip (secs : List MdSection) (bucket : Str → List ImageFile)
    {i : Nat} {sec : MdSection} (R : List Str) (hi : secs[i]? = some sec)
    (hbe : (bucket sec.key).isEmpty = true) : spliceStep secs bucket i R = R := by
  unfold spliceStep
  rw [hi]
  show (if (bucket sec.key).isEmpty = true then R
    else insertAtPos R
      (match secs[i + 1]? with
       | some next => backtrackSep R sec.lineIndex next.lineIndex
       | none => R.length) ((bucket sec.key).map imgLine)) = R
  rw [if_pos hbe]

theorem spliceStep_last (secs : List MdSection) (bucket : Str → List ImageFile)
    {i : Nat} {sec : MdSection} (R : List Str) (hi : secs[i]? = some sec)
    (hnext : secs[i + 1]? = none) (hbe : (bucket sec.key).isEmpty = false) :
    spliceStep secs bucket i R = insertAtPos R R.length ((bucket sec.key).map imgLine) := by
  unfold spliceStep
  rw [hi]
  show (if (bucket sec.key).isEmpty = true then R
    else insertAtPos R
      (match secs[i + 1]? with
       | some next => backtrackSep R sec.lineIndex next.lineIndex
       | none => R.length) ((bucket sec.key).map imgLine)) = _
  rw [if_neg (by simp [hbe]), hnext]

theorem spliceStep_mid (secs : List MdSection) (bucket : Str → List ImageFile)
    {i : Nat} {sec next : MdSection} (R : List Str) (hi : secs[i]? = some sec)
    (hnext : secs[i + 1]? = some next) (hbe : (bucket sec.key).isEmpty = false) :
    spliceStep secs bucket i R
      = insertAtPos R (backtrackSep R sec.lineIndex next.lineIndex)
          ((bucket sec.key).map imgLine) := by
  unfold spliceStep
  rw [hi]
  show (if (bucket sec.key).isEmpty = true then R
    else insertAtPos R
      (match secs[i + 1]? with
       | some next => backtrackSep R sec.lineIndex next.lineIndex
       | none => R.length) ((bucket sec.key).map imgLine)) = _
  rw [if_neg (by simp [hbe]), hnext]

theorem spliceStep_eq (lines : List Str) (secs : List MdSection)
    (bucket : Str → List ImageFile)
    (hp : secs.Pairwise (fun s t => s.lineIndex < t.lineIndex))
    (hb : ∀ s ∈ secs, s.lineIndex < lines.length)
    {m : Nat} (hm : m < secs.length) :
    spliceStep secs bucket m (multiInsert lines (autoLinkInsertsFrom lines secs bucket (m + 1)))
      = multiInsert lines (autoLinkInsertsFrom lines secs bucket m) := by
  have hsec : secs[m]? = some secs[m] := List.getElem?_eq_getElem hm
  rcases hbe : (bucket secs[m].key).isEmpty with _ | _
  · -- non-empty bucket: really insert
    rw [insertsFrom_decomp lines secs bucket hm, insFn_some lines secs bucket hsec hbe]
    rcases hnext : secs[m + 1]? with _ | next
    · have hlen : secs.length ≤ m + 1 := List.getElem?_eq_none_iff.1 hnext
      have hm1 : m + 1 = secs.length := by omega
      rw [spliceStep_last secs bucket _ hsec hnext hbe, hm1, insertsFrom_self,
        multiInsert_cons, insertPosSpec_none lines secs hsec hnext]
      rfl
    · have hlt : secs[m].lineIndex < next.lineIndex :=
        pairwise_getElem?_rel hp hsec hnext (Nat.lt_succ_self m)
      have hnl : next.lineIndex < lines.length := hb next (mem_of_getElem?_eq_some hnext)
      rw [spliceStep_mid secs bucket _ hsec hnext hbe, multiInsert_cons,
        insertPosSpec_some lines secs hsec hnext]
      have hbt : backtrackSep (multiInsert lines (autoLinkInsertsFrom lines secs bucket (m + 1)))
          secs[m].lineIndex next.lineIndex
          = backtrackSep lines secs[m].lineIndex next.lineIndex := by
        apply backtrackSep_congr
        intro j hj1 hj2
        rw [List.getD_eq_getElem?_getD, List.getD_eq_getElem?_getD,
          multiInsert_getElem?_lt lines (next.lineIndex + 1) _
            (fun pb hpb => autoLinkInsertsFrom_pos lines secs bucket hp hb hnext pb hpb)
            j (by omega) (by omega)]
      rw [hbt]
  · -- empty bucket: `continue`
    rw [spliceStep_skip secs bucket _ hsec hbe, insertsFrom_decomp lines secs bucket hm,
      insFn_none lines secs bucket hsec hbe]

theorem spliceRev_eq_multiInsert (lines : List Str) (secs : List MdSection)
    (bucket : Str → List ImageFile)
    (hp : secs.Pairwise (fun s t => s.lineIndex < t.lineIndex))
    (hb : ∀ s ∈ secs, s.lineIndex < lines.length) :
    ∀ m, m ≤ secs.length →
      spliceRev secs bucket ((List.range m).reverse)
          (multiInsert lines (autoLinkInsertsFrom lines secs bucket m))
        = multiInsert lines (autoLinkInsertsFrom lines secs bucket 0)
  | 0, _ => by
    rw [List.range_zero, List.reverse_nil]
    rfl
  | m + 1, hmk => by
    rw [range_reverse_succ]
    show spliceRev secs bucket ((List.range m).reverse)
        (spliceStep secs bucket m
          (multiInsert lines (autoLinkInsertsFrom lines secs bucket (m + 1))))
      = _
    rw [spliceStep_eq lines secs bucket hp hb (by omega)]
    exact spliceRev_eq_multiInsert lines secs bucket hp hb m (by omega)

theorem spliceRev_full (lines : List Str) (secs : List MdSection)
    (bucket : Str → List ImageFile)
    (hp : secs.Pairwise (fun s t => s.lineIndex < t.lineIndex))
    (hb : ∀ s ∈ secs, s.lineIndex < lines.length) :
    spliceRev secs bucket ((List.range secs.length).reverse) lines
      = multiInsert lines (autoLinkInserts lines secs bucket) := by
  have h0 := spliceRev_eq_multiInsert lines secs bucket hp hb secs.length (Nat.le_refl _)
  rw [insertsFrom_self] at h0
  have h1 : autoLinkInsertsFrom lines secs bucket 0 = autoLinkInserts lines secs bucket := by
    unfold autoLinkInsertsFrom autoLinkInserts
    rw [List.range_eq_range', Nat.sub_zero]
  rw [h1] at h0
  exact h0

theorem insertsFrom_zero (lines : List Str) (secs : List MdSection)
    (bucket : Str → List ImageFile) :
    autoLinkInsertsFrom lines secs bucket 0 = autoLinkInserts lines secs bucket := by
  unfold autoLinkInsertsFrom autoLinkInserts
  rw [List.range_eq_range', Nat.sub_zero]

theorem hasKey_mem {secs : List MdSection} {k : Str} (h : hasKey secs k = true) :
    k ∈ secs.map (fun s => s.key) := by
  unfold hasKey at h
  rcases List.any_eq_true.1 h with ⟨s, hs, hks⟩
  exact List.mem_map.2 ⟨s, hs, beq_iff_eq.1 hks⟩

theorem classify_mem_keys {secs : List MdSection} {name : Str} {k : Str}
    (h : classifyScreenshot secs name = some k) : k ∈ secs.map (fun s => s.key) := by
  unfold classifyScreenshot at h
  rcases hex : extractShotKey name with _ | mm <;> rw [hex] at h
  · simp at h
  · rcases mm with ⟨maj, mio⟩
    rcases mio with _ | mi
    · have h' : (if hasKey secs (majorKeyStr maj) then some (majorKeyStr maj)
          else none) = some k := h
      by_cases h1 : hasKey secs (majorKeyStr maj)
      · rw [if_pos h1] at h'
        exact Option.some.inj h' ▸ hasKey_mem (by simpa using h1)
      · rw [if_neg h1] at h'
        simp at h'
    · have h' : (if hasKey secs (exactKeyStr maj mi) then some (exactKeyStr maj mi)
          else if hasKey secs (majorKeyStr maj) then some (majorKeyStr maj)
          else none) = some k := h
      by_cases h1 : hasKey secs (exactKeyStr maj mi)
      · rw [if_pos h1] at h'
        exact Option.some.inj h' ▸ hasKey_mem (by simpa using h1)
      · rw [if_neg h1] at h'
        by_cases h2 : hasKey secs (majorKeyStr maj)
        · rw [if_pos h2] at h'
          exact Option.some.inj h' ▸ hasKey_mem (by simpa using h2)
        · rw [if_neg h2] at h'
          simp at h'

theorem insertsFrom_blocks (lines : List Str) (secs : List MdSection)
    (bucket : Str → List ImageFile) :
    ∀ m, ((autoLinkInsertsFrom lines secs bucket m).map Prod.snd).flatten
      = ((secs.drop m).map (fun s => (bucket s.key).map imgLine)).flatten
  | m => by
    by_cases hm : m < secs.length
    · have hsec : secs[m]? = some secs[m] := List.getElem?_eq_getElem hm
      rw [insertsFrom_decomp lines secs bucket hm, List.drop_eq_getElem_cons hm,
        List.map_cons, List.flatten_cons]
      rcases hbe : (bucket secs[m].key).isEmpty with _ | _
      · rw [insFn_some lines secs bucket hsec hbe, List.map_cons, List.flatten_cons,
          insertsFrom_blocks lines secs bucket (m + 1)]
      · rw [insFn_none lines secs bucket hsec hbe,
          insertsFrom_blocks lines secs bucket (m + 1), List.isEmpty_iff.1 hbe]
        rfl
    · have h1 : autoLinkInsertsFrom lines secs bucket m = [] := by
        unfold autoLinkInsertsFrom
        have : secs.length - m = 0 := by omega
        rw [this]
        rfl
      have h2 : secs.drop m = [] := List.drop_eq_nil_of_le (by omega)
      rw [h1, h2]
      rfl
termination_by m => secs.length - m
decreasing_by
  all_goals omega

theorem group_perm (p : ImageFile → Option Str) :
    ∀ (l : List ImageFile) (ks : List Str), ks.Nodup →
      (∀ x ∈ l, ∀ k, p x = some k → k ∈ ks) →
      ((ks.map (fun k => l.filter (fun x => p x == some k))).flatten).Perm
        (l.filter (fun x => (p x).isSome))
  | [], ks, _, _ => by
    have h1 : (ks.map (fun k => ([] : List ImageFile).filter
        (fun x => p x == some k))).flatten = [] := by
      rw [List.flatten_eq_nil_iff]
      intro l hl
      rcases List.mem_map.1 hl with ⟨k, _, rfl⟩
      rfl
    rw [h1]
    exact List.Perm.refl _
  | x :: l, ks, hnd, hmem => by
    rcases hp : p x with _ | k0
    · have hfilter : ∀ k ∈ ks, ((x :: l).filter (fun y => p y == some k))
          = l.filter (fun y => p y == some k) := by
        intro k _
        rw [List.filter_cons, if_neg (by rw [hp]; simp)]
      rw [List.map_congr_left hfilter, List.filter_cons,
        if_neg (by rw [hp]; simp)]
      exact group_perm p l ks hnd (fun y hy => hmem y (List.mem_cons_of_mem x hy))
    · have hk0 : k0 ∈ ks := hmem x (List.mem_cons_self x l) k0 hp
      rcases List.append_of_mem hk0 with ⟨ks1, ks2, rfl⟩
      have hnotmem : k0 ∉ ks1 ++ ks2 := (List.nodup_cons.1 (List.nodup_middle.1 hnd)).1
      have hmain := group_perm p l (ks1 ++ k0 :: ks2) hnd
        (fun y hy => hmem y (List.mem_cons_of_mem x hy))
      have hf1 : ∀ k ∈ ks1, ((x :: l).filter (fun y => p y == some k))
          = l.filter (fun y => p y == some k) := by
        intro k hk
        have hne : k ≠ k0 := fun h => hnotmem (List.mem_append.2 (Or.inl (h ▸ hk)))
        rw [List.filter_cons, if_neg (by rw [hp]; simp; exact fun h => hne h.symm)]
      have hf2 : ∀ k ∈ ks2, ((x :: l).filter (fun y => p y == some k))
          = l.filter (fun y => p y == some k) := by
        intro k hk
        have hne : k ≠ k0 := fun h => hnotmem (List.mem_append.2 (Or.inr (h ▸ hk)))
        rw [List.filter_cons, if_neg (by rw [hp]; simp; exact fun h => hne h.symm)]
      have hfk0 : ((x :: l).filter (fun y => p y == some k0))
          = x :: l.filter (fun y => p y == some k0) := by
        rw [List.filter_cons, if_pos (by rw [hp]; simp)]
      rw [List.map_append, List.map_cons, List.flatten_append, List.flatten_cons,
        List.map_congr_left hf1, List.map_congr_left hf2, hfk0, List.filter_cons,
        if_pos (by rw [hp]; simp)]
      rw [List.map_append, List.map_cons, List.flatten_append, List.flatten_cons] at hmain
      rw [List.cons_append]
      exact List.Perm.trans List.perm_middle (hmain.cons x)

theorem blocks_perm_general (lines : List Str) (secs : List MdSection)
    (sorted : List ImageFile)
    (h5 : secs.Pairwise (fun s t => s.key ≠ t.key)) :
    ((autoLinkInserts lines secs (bucketFor secs sorted)).map Prod.snd).flatten.Perm
      ((sorted.filter
        (fun img => (classifyScreenshot secs img.name).isSome)).map imgLine) := by
  rw [← insertsFrom_zero, insertsFrom_blocks, List.drop_zero]
  have hmm : secs.map (fun s => (bucketFor secs sorted s.key).map imgLine)
      = ((secs.map (fun s => s.key)).map (fun k => bucketFor secs sorted k)).map
          (List.map imgLine) := by
    rw [List.map_map, List.map_map]
    rfl
  rw [hmm, ← List.map_flatten]
  apply List.Perm.map
  have hnd : (secs.map (fun s => s.key)).Nodup := List.pairwise_map.2 h5
  exact group_perm (fun img => classifyScreenshot secs img.name) sorted
    (secs.map (fun s => s.key)) hnd (fun x _ k hk => classify_mem_keys hk)

theorem processedMarkdown_active (md : Str) (shots : List ImageFile)
    (h1 : hasImageRef md = false) (h2 : shots ≠ []) (h3 : md ≠ [])
    (h4 : detectSections (splitLines md) ≠ []) :
    processedMarkdown md shots
      = joinLines (mainSpliced md shots ++ appendixEls md shots) := by
  show (if (hasImageRef md || shots.isEmpty || md.isEmpty) = true then md
    else if (detectSections (splitLines md)).isEmpty = true then md
    else joinLines (spliceRev (detectSections (splitLines md))
        (bucketFor (detectSections (splitLines md)) (sortScreenshots shots))
        ((List.range (detectSections (splitLines md)).length).reverse) (splitLines md) ++
      (if (unmatchedOf (detectSections (splitLines md)) (sortScreenshots shots)).isEmpty then []
       else sepLineEl :: refHeadingEl ::
         (unmatchedOf (detectSections (splitLines md)) (sortScreenshots shots)).map imgLine)))
    = joinLines (mainSpliced md shots ++ appendixEls md shots)
  rw [h1, show shots.isEmpty = false from List.isEmpty_eq_false.2 h2,
    show md.isEmpty = false from List.isEmpty_eq_false.2 h3,
    show (detectSections (splitLines md)).isEmpty = false from List.isEmpty_eq_false.2 h4]
  rw [if_neg (by simp), if_neg (by simp)]
  rw [spliceRev_full (splitLines md) (detectSections (splitLines md)) _
    (detectSections_pairwise (splitLines md)) (detectSections_lt_length (splitLines md))]
  rfl

/-! Paginator lemmas. -/

theorem pagStep_content (st : PagState) (n : PageNode) :
    (pagStep st n).sections.flatten ++ (pagStep st n).cur
      = st.sections.flatten ++ st.cur ++ n.html := by
  unfold pagStep
  split
  · simp [List.flatten_append]
  · split
    · simp [List.flatten_append]
    · simp [List.append_assoc]

theorem foldl_pag_content :
    ∀ (nodes : List PageNode) (st : PagState),
      (nodes.foldl pagStep st).sections.flatten ++ (nodes.foldl pagStep st).cur
        = st.sections.flatten ++ st.cur ++ (nodes.map PageNode.html).flatten
  | [], st => by simp
  | n :: nodes, st => by
    rw [List.foldl_cons, foldl_pag_content nodes (pagStep st n), pagStep_content]
    simp [List.append_assoc]

theorem pagStep_cur_nonblank (st : PagState) (n : PageNode)
    (hn : trimStr n.html ≠ []) : trimStr (pagStep st n).cur ≠ [] := by
  unfold pagStep
  split
  · exact hn
  · split
    · exact hn
    · exact trimStr_append_ne st.cur n.html hn

theorem foldl_pag_cur :
    ∀ (nodes : List PageNode) (st : PagState),
      (∀ n ∈ nodes, trimStr n.html ≠ []) →
      (st.cur = [] ∨ trimStr st.cur ≠ []) →
      ((nodes.foldl pagStep st).cur = [] ∨ trimStr (nodes.foldl pagStep st).cur ≠ [])
  | [], _, _, hst => hst
  | n :: nodes, st, hall, _ => by
    rw [List.foldl_cons]
    exact foldl_pag_cur nodes (pagStep st n)
      (fun m hm => hall m (List.mem_cons_of_mem n hm))
      (Or.inr (pagStep_cur_nonblank st n (hall n (List.mem_cons_self n nodes))))

theorem pagStep_sections_nonblank (st : PagState) (n : PageNode)
    (hst : ∀ p ∈ st.sections, trimStr p ≠ []) :
    ∀ p ∈ (pagStep st n).sections, trimStr p ≠ [] := by
  unfold pagStep
  split
  · next hcond =>
    intro p hp
    rcases List.mem_append.1 hp with h | h
    · exact hst p h
    · rw [List.mem_singleton.1 h]
      exact hcond.2
  · split
    · next hcond =>
      intro p hp
      rcases List.mem_append.1 hp with h | h
      · exact hst p h
      · rw [List.mem_singleton.1 h]
        exact hcond.2.1
    · exact fun p hp => hst p hp

theorem foldl_pag_sections :
    ∀ (nodes : List PageNode) (st : PagState),
      (∀ p ∈ st.sections, trimStr p ≠ []) →
      ∀ p ∈ (nodes.foldl pagStep st).sections, trimStr p ≠ []
  | [], _, hst => hst
  | n :: nodes, st, hst => by
    rw [List.foldl_cons]
    exact foldl_pag_sections nodes (pagStep st n) (pagStep_sections_nonblank st n hst)

/-! Resolver lemmas. -/

theorem name_unique {imgs : List ImageFile}
    (hnd : imgs.Pairwise (fun a b => a.name ≠ b.name)) :
    ∀ {A B : ImageFile}, A ∈ imgs → B ∈ imgs → B.name = A.name → B = A := by
  induction imgs with
  | nil =>
    intro A B hA _ _
    simp at hA
  | cons x l ih =>
    intro A B hA hB hname
    have hx := (List.pairwise_cons.1 hnd).1
    have hl := (List.pairwise_cons.1 hnd).2
    rcases List.mem_cons.1 hA with rfl | hA'
    · rcases List.mem_cons.1 hB with rfl | hB'
      · rfl
      · exact absurd hname.symm (hx B hB')
    · rcases List.mem_cons.1 hB with rfl | hB'
      · exact absurd hname (hx A hA')
      · exact ih hl hA' hB' hname

theorem takeWhile_all_append {p : Char → Bool} :
    ∀ (l1 : List Char) (x : Char) (l2 : List Char), (∀ c ∈ l1, p c = true) → p x = false →
      (l1 ++ x :: l2).takeWhile p = l1
  | [], x, l2, _, hx => by simp [List.takeWhile_cons, hx]
  | c :: l1, x, l2, hall, hx => by
    rw [List.cons_append, List.takeWhile_cons, if_pos (hall c (List.mem_cons_self c l1)),
      takeWhile_all_append l1 x l2 (fun d hd => hall d (List.mem_cons_of_mem c hd)) hx]

theorem basename_no_slash {name : Str} (h : '/' ∉ name) : basename name = name := by
  unfold basename
  rw [List.takeWhile_eq_self_iff.2 ?_, List.reverse_reverse]
  intro c hc
  have hcm : c ∈ name := List.mem_reverse.1 hc
  simp only [Bool.not_eq_true', beq_eq_false_iff_ne]
  exact fun heq => h (heq ▸ hcm)

theorem basename_append {pre name : Str} (h : '/' ∉ name) :
    basename (pre ++ '/' :: name) = name := by
  unfold basename
  rw [List.reverse_append, List.reverse_cons, List.append_assoc, List.singleton_append,
    takeWhile_all_append name.reverse '/' pre.reverse ?_ (by simp), List.reverse_reverse]
  intro c hc
  have hcm : c ∈ name := List.mem_reverse.1 hc
  simp only [Bool.not_eq_true', beq_eq_false_iff_ne]
  exact fun heq => h (heq ▸ hcm)

theorem unmatched_appendix_aux (md : Str) (shots : List ImageFile)
    (h1 : hasImageRef md = false) (h2 : shots ≠ []) (h3 : md ≠ [])
    (h4 : detectSections (splitLines md) ≠ [])
    (h6 : unmatchedOf (detectSections (splitLines md)) (sortScreenshots shots) ≠ []) :
    processedMarkdown md shots
      = joinLines (mainSpliced md shots ++ sepLineEl :: refHeadingEl ::
          (unmatchedOf (detectSections (splitLines md)) (sortScreenshots shots)).map
            imgLine) := by
  rw [processedMarkdown_active md shots h1 h2 h3 h4]
  unfold appendixEls
  rw [show (unmatchedOf (detectSections (splitLines md)) (sortScreenshots shots)).isEmpty
      = false from List.isEmpty_eq_false.2 h6]
  rw [if_neg (by simp)]

/-! The claims. -/

/-- C1 (corrected), counterexample to the claim as stated: with the two
headings `## 1. A` and `## 1. B` sharing the duplicate key `1` and the
single matching asset `01_x.png`, the Auto-Linker output contains the image
reference line `![01_x.png](01_x.png)` twice, not exactly once — the loop
splices the same bucket at every heading whose key matches. -/
theorem autoLinker_duplicate_keys_cex :
    (splitLines (processedMarkdown ("## 1. A\n## 1. B".data)
        [⟨"01_x.png".data, "d".data⟩])).count ("![01_x.png](01_x.png)".data) = 2 := by
  decide

/-- C1 (amended): for Markdown with no image syntax, a non-empty asset list,
and pairwise-distinct recorded heading keys, (1) the Auto-Linker output is
the original lines with each non-empty bucket's image lines inserted, in
bucket order, at the spec position (just before the next recorded heading's
line, backtracked past an intervening `---`-only line, or end-of-document
for the last heading), followed by the unmatched appendix; (2) the inserted
image lines are, up to the grouping by heading, exactly one line per
matched asset; (3) every insertion point lies strictly after its heading's
line and not after the next heading's line. -/
theorem autoLinker_matched_insertion (md : Str) (shots : List ImageFile)
    (h1 : hasImageRef md = false) (h2 : shots ≠ []) (h3 : md ≠ [])
    (h4 : detectSections (splitLines md) ≠ [])
    (h5 : (detectSections (splitLines md)).Pairwise (fun s t => s.key ≠ t.key)) :
    processedMarkdown md shots = joinLines (mainSpliced md shots ++ appendixEls md shots)
    ∧ ((autoLinkInserts (splitLines md) (detectSections (splitLines md))
        (bucketFor (detectSections (splitLines md))
          (sortScreenshots shots))).map Prod.snd).flatten.Perm
        ((matchedAssets md shots).map imgLine)
    ∧ (∀ (i : Nat) (sec : MdSection), (detectSections (splitLines md))[i]? = some sec →
        sec.lineIndex < insertPosSpec (splitLines md) (detectSections (splitLines md)) i
        ∧ ∀ next, (detectSections (splitLines md))[i + 1]? = some next →
            insertPosSpec (splitLines md) (detectSections (splitLines md)) i
              ≤ next.lineIndex) :=
  ⟨processedMarkdown_active md shots h1 h2 h3 h4,
   blocks_perm_general (splitLines md) (detectSections (splitLines md))
     (sortScreenshots shots) h5,
   fun i sec hi =>
     ⟨insertPosSpec_gt (splitLines md) (detectSections (splitLines md))
        (detectSections_pairwise (splitLines md))
        (detectSections_lt_length (splitLines md)) hi,
      fun next hnext =>
        insertPosSpec_le_next (splitLines md) (detectSections (splitLines md)) hi hnext
          (pairwise_getElem?_rel (detectSections_pairwise (splitLines md)) hi hnext
            (Nat.lt_succ_self i))⟩⟩

/-- Witness for C1 at the spec's own scenario: `## 1. Intro` with `text`,
a second heading, a matching asset `01_shot.png` and an unmatched
`03_extra.png`. -/
theorem autoLinker_matched_insertion_witness :
    processedMarkdown ("## 1. Intro\ntext\n## 2. B".data)
        [⟨"01_shot.png".data, "d".data⟩, ⟨"03_extra.png".data, "e".data⟩]
      = joinLines (mainSpliced ("## 1. Intro\ntext\n## 2. B".data)
            [⟨"01_shot.png".data, "d".data⟩, ⟨"03_extra.png".data, "e".data⟩]
          ++ appendixEls ("## 1. Intro\ntext\n## 2. B".data)
            [⟨"01_shot.png".data, "d".data⟩, ⟨"03_extra.png".data, "e".data⟩]) :=
  (autoLinker_matched_insertion _ _ (by decide) (by decide) (by decide) (by decide)
    (by decide)).1

/-- C4: the Auto-Linker is the identity transform whenever the Markdown
already contains an inline image reference, and whenever no asset is
uploaded. -/
theorem autoLinker_identity_cases (md : Str) (shots : List ImageFile) :
    (hasImageRef md = true → processedMarkdown md shots = md)
    ∧ (shots = [] → processedMarkdown md shots = md) := by
  constructor
  · intro h
    unfold processedMarkdown
    rw [if_pos (by rw [h]; rfl)]
  · intro h
    subst h
    unfold processedMarkdown
    rw [if_pos (by simp)]

/-- Witness for C4: identity on a document that already has an image
reference, and identity with zero uploaded assets. -/
theorem autoLinker_identity_cases_witness :
    processedMarkdown ("![a](b)".data) [⟨"01_x.png".data, "d".data⟩] = "![a](b)".data
    ∧ processedMarkdown ("## 1. A\ntext".data) [] = "## 1. A\ntext".data :=
  ⟨(autoLinker_identity_cases _ _).1 (by decide),
   (autoLinker_identity_cases _ _).2 rfl⟩

/-- C5: the screenshot classifier follows the claimed precedence — no
extractable prefix means unmatched; an exact `major.minor` key that is
recorded wins even over a recorded bare-major key; otherwise a recorded
bare-major key is used; otherwise the asset is unmatched — and an asset is
in a bucket exactly when it is classified to that bucket's key. -/
theorem screenshot_classification :
    (∀ (secs : List MdSection) (name : Str),
      extractShotKey name = none → classifyScreenshot secs name = none)
    ∧ (∀ (secs : List MdSection) (name : Str) (maj mi : Nat),
        extractShotKey name = some (maj, some mi) →
        hasKey secs (exactKeyStr maj mi) = true →
        classifyScreenshot secs name = some (exactKeyStr maj mi))
    ∧ (∀ (secs : List MdSection) (name : Str) (maj mi : Nat),
        extractShotKey name = some (maj, some mi) →
        hasKey secs (exactKeyStr maj mi) = false →
        hasKey secs (majorKeyStr maj) = true →
        classifyScreenshot secs name = some (majorKeyStr maj))
    ∧ (∀ (secs : List MdSection) (name : Str) (maj : Nat),
        extractShotKey name = some (maj, none) →
        hasKey secs (majorKeyStr maj) = true →
        classifyScreenshot secs name = some (majorKeyStr maj))
    ∧ (∀ (secs : List MdSection) (name : Str) (maj : Nat),
        extractShotKey name = some (maj, none) →
        hasKey secs (majorKeyStr maj) = false →
        classifyScreenshot secs name = none)
    ∧ (∀ (secs : List MdSection) (name : Str) (maj mi : Nat),
        extractShotKey name = some (maj, some mi) →
        hasKey secs (exactKeyStr maj mi) = false →
        hasKey secs (majorKeyStr maj) = false →
        classifyScreenshot secs name = none)
    ∧ (∀ (secs : List MdSection) (sorted : List ImageFile) (img : ImageFile) (k : Str),
        img ∈ bucketFor secs sorted k ↔
          img ∈ sorted ∧ classifyScreenshot secs img.name = some k) := by
  refine ⟨?_, ?_, ?_, ?_, ?_, ?_, ?_⟩
  · intro secs name hex
    unfold classifyScreenshot
    rw [hex]
  · intro secs name maj mi hex hkey
    unfold classifyScreenshot
    rw [hex]
    show (if hasKey secs (exactKeyStr maj mi) = true then some (exactKeyStr maj mi)
      else if hasKey secs (majorKeyStr maj) = true then some (majorKeyStr maj)
      else none) = some (exactKeyStr maj mi)
    rw [if_pos hkey]
  · intro secs name maj mi hex hkey1 hkey2
    unfold classifyScreenshot
    rw [hex]
    show (if hasKey secs (exactKeyStr maj mi) = true then some (exactKeyStr maj mi)
      else if hasKey secs (majorKeyStr maj) = true then some (majorKeyStr maj)
      else none) = some (majorKeyStr maj)
    rw [if_neg (by simp [hkey1]), if_pos hkey2]
  · intro secs name maj hex hkey
    unfold classifyScreenshot
    rw [hex]
    show (if hasKey secs (majorKeyStr maj) = true then some (majorKeyStr maj)
      else none) = some (majorKeyStr maj)
    rw [if_pos hkey]
  · intro secs name maj hex hkey
    unfold classifyScreenshot
    rw [hex]
    show (if hasKey secs (majorKeyStr maj) = true then some (majorKeyStr maj)
      else none) = none
    rw [if_neg (by simp [hkey])]
  · intro secs name maj mi hex hkey1 hkey2
    unfold classifyScreenshot
    rw [hex]
    show (if hasKey secs (exactKeyStr maj mi) = true then some (exactKeyStr maj mi)
      else if hasKey secs (majorKeyStr maj) = true then some (majorKeyStr maj)
      else none) = none
    rw [if_neg (by simp [hkey1]), if_neg (by simp [hkey2])]
  · intro secs sorted img k
    simp [bucketFor, List.mem_filter]

/-- Witness for C5 on concrete assets: exact-key precedence, bare-major
fallback, an unmatched filename, and the bucket-membership equivalence. -/
theorem screenshot_classification_witness :
    classifyScreenshot [⟨0, "2.1".data, 3⟩, ⟨5, "2".data, 2⟩] ("02-01_login.png".data)
      = some (exactKeyStr 2 1)
    ∧ classifyScreenshot [⟨5, "2".data, 2⟩] ("02-01_login.png".data)
      = some (majorKeyStr 2)
    ∧ classifyScreenshot [⟨5, "2".data, 2⟩] ("mobile_01.png".data) = none
    ∧ (⟨"02-01_login.png".data, "d".data⟩ ∈
        bucketFor [⟨0, "2.1".data, 3⟩] [⟨"02-01_login.png".data, "d".data⟩]
          (exactKeyStr 2 1) ↔
        (⟨"02-01_login.png".data, "d".data⟩ : ImageFile) ∈
          [(⟨"02-01_login.png".data, "d".data⟩ : ImageFile)]
        ∧ classifyScreenshot [⟨0, "2.1".data, 3⟩] ("02-01_login.png".data)
          = some (exactKeyStr 2 1)) :=
  ⟨screenshot_classification.2.1 _ _ 2 1 (by decide) (by decide),
   screenshot_classification.2.2.1 _ _ 2 1 (by decide) (by decide) (by decide),
   screenshot_classification.1 _ _ (by decide),
   screenshot_classification.2.2.2.2.2.2 _ _ _ _⟩

/-- C7: on an activated Auto-Linker run with at least one unmatched asset,
the output is the spliced main content followed by a separator element, the
synthesized reference-screenshots heading, and exactly one image line per
unmatched asset, in order. -/
theorem unmatched_appendix (md : Str) (shots : List ImageFile)
    (h1 : hasImageRef md = false) (h2 : shots ≠ []) (h3 : md ≠ [])
    (h4 : detectSections (splitLines md) ≠ [])
    (h6 : unmatchedOf (detectSections (splitLines md)) (sortScreenshots shots) ≠ []) :
    processedMarkdown md shots
      = joinLines (mainSpliced md shots ++ sepLineEl :: refHeadingEl ::
          (unmatchedOf (detectSections (splitLines md)) (sortScreenshots shots)).map
            imgLine) :=
  unmatched_appendix_aux md shots h1 h2 h3 h4 h6

/-- Witness for C7 at the spec's scenario: headings `## 1.` and `## 2.`
with the single non-matching asset `03_extra.png`. -/
theorem unmatched_appendix_witness :
    processedMarkdown ("## 1. A\n## 2. B".data) [⟨"03_extra.png".data, "d".data⟩]
      = joinLines (mainSpliced ("## 1. A\n## 2. B".data) [⟨"03_extra.png".data, "d".data⟩]
          ++ sepLineEl :: refHeadingEl ::
            (unmatchedOf (detectSections (splitLines ("## 1. A\n## 2. B".data)))
              (sortScreenshots [⟨"03_extra.png".data, "d".data⟩])).map imgLine) :=
  unmatched_appendix _ _ (by decide) (by decide) (by decide) (by decide) (by decide)

/-- C10 (implicit claim): when no numbered heading is recognized at all, the
Auto-Linker returns the input unchanged — in particular no reference
appendix is added even though assets are uploaded. -/
theorem no_heading_identity (md : Str) (shots : List ImageFile)
    (h : detectSections (splitLines md) = []) :
    processedMarkdown md shots = md := by
  unfold processedMarkdown
  by_cases h0 : (hasImageRef md || shots.isEmpty || md.isEmpty) = true
  · rw [if_pos h0]
  · rw [if_neg h0, if_pos (by rw [h]; rfl)]

/-- Witness for C10: a headingless document with an uploaded asset passes
through unchanged. -/
theorem no_heading_identity_witness :
    detectSections (splitLines ("hello\nworld".data)) = []
    ∧ processedMarkdown ("hello\nworld".data) [⟨"01_x.png".data, "d".data⟩]
      = "hello\nworld".data :=
  ⟨by decide, no_heading_identity _ [⟨"01_x.png".data, "d".data⟩] (by decide)⟩

/-- C2 (corrected), counterexample to the claim as stated: two consecutive
`H2` nodes — the H2-forced flush emits the first page with the lone heading
`<h2>A</h2>` as its entire body even though another node follows in the
source sequence. -/
theorem h2_flush_sole_heading_cex :
    paginate [⟨"H2".data, "<h2>A</h2>".data, false⟩, ⟨"H2".data, "<h2>B</h2>".data, false⟩]
      = ["<h2>A</h2>".data, "<h2>B</h2>".data]
    ∧ isOnlyHeading (trimStr ("<h2>A</h2>".data)) = true := by
  decide

/-- C2 (amended): a page emitted by the height-budget overflow flush (the
flush taken for a non-`H2` node) is never a sole-heading page — its trimmed
body fails the heading-only pattern, because the flush is skipped exactly
when that pattern matches; the flush forced by a second-level heading
carries no such protection. -/
theorem overflow_flush_no_sole_heading (st : PagState) (n : PageNode)
    (hne : n.tag ≠ "H2".data) (p : Str)
    (h : (pagStep st n).sections = st.sections ++ [p]) :
    isOnlyHeading (trimStr p) = false := by
  unfold pagStep at h
  rw [if_neg (fun hc => hne hc.1)] at h
  by_cases hc : st.height + estimateHeight n > MAX_PAGE_HEIGHT ∧ trimStr st.cur ≠ [] ∧
      isOnlyHeading (trimStr st.cur) = false
  · rw [if_pos hc] at h
    have h' : st.sections ++ [st.cur] = st.sections ++ [p] := h
    have hcur : st.cur = p := by
      have := List.append_cancel_left h'
      exact (List.cons.injEq _ _ _ _ ▸ this).1
    rw [← hcur]
    exact hc.2.2
  · rw [if_neg hc] at h
    have h' : st.sections = st.sections ++ [p] := h
    simp at h'

/-- Witness for C2: an overflow flush from a non-heading page emits a page
that is not heading-only. -/
theorem overflow_flush_no_sole_heading_witness :
    isOnlyHeading (trimStr ("<p>a</p>".data)) = false :=
  overflow_flush_no_sole_heading ⟨[], "<p>a</p>".data, 870⟩ ⟨"P".data, "x".data, false⟩
    (by decide) ("<p>a</p>".data) (by decide)

/-- C3 (corrected), counterexample to the claim as stated: a single node
whose markup is whitespace-only is dropped entirely — the final flush is
guarded by `currentSection.trim()` — so the concatenated page bodies do not
reconstruct the input markup. -/
theorem paginate_drops_blank_cex :
    (paginate [⟨[], [' ', ' '], false⟩]).flatten
      ≠ ([(⟨[], [' ', ' '], false⟩ : PageNode)].map PageNode.html).flatten := by
  decide

/-- C3 (amended): for node sequences in which every node's markup has
non-blank content (which the node collector guarantees: element nodes carry
their `outerHTML` and text nodes are only kept when their trimmed text is
non-empty), concatenating the emitted page bodies in order reconstructs the
concatenation of the input nodes' markup — nothing dropped, duplicated, or
reordered. -/
theorem paginate_reconstructs_content (nodes : List PageNode)
    (h : ∀ n ∈ nodes, trimStr n.html ≠ []) :
    (paginate nodes).flatten = (nodes.map PageNode.html).flatten := by
  unfold paginate
  have hc : (nodes.foldl pagStep ⟨[], [], 0⟩).sections.flatten
      ++ (nodes.foldl pagStep ⟨[], [], 0⟩).cur = (nodes.map PageNode.html).flatten := by
    have := foldl_pag_content nodes ⟨[], [], 0⟩
    simpa using this
  split
  · rw [List.flatten_append]
    simpa using hc
  · next hcur =>
    have hP := foldl_pag_cur nodes ⟨[], [], 0⟩ h (Or.inl rfl)
    have hcur0 : (nodes.foldl pagStep ⟨[], [], 0⟩).cur = [] := by
      rcases hP with h0 | h0
      · exact h0
      · exact absurd h0 (by simpa using hcur)
    rw [← hc, hcur0, List.append_nil]

/-- Witness for C3: a one-paragraph sequence is reconstructed exactly. -/
theorem paginate_reconstructs_content_witness :
    (paginate [⟨"P".data, "<p>a</p>".data, false⟩]).flatten
      = ([⟨"P".data, "<p>a</p>".data, false⟩].map PageNode.html).flatten :=
  paginate_reconstructs_content _ (by decide)

set_option maxRecDepth 8192 in
/-- C6 (corrected), counterexample to the claim as stated: after 36
whitespace-only nodes the accumulated page is blank but its estimated
height is 900; the next node overflows the budget and the accumulated page
is not a bare heading, yet no flush happens — the code also requires the
accumulated content to be non-blank, which the claim's "exactly when"
condition omits. -/
theorem pagination_flush_policy_cex :
    ((List.replicate 36 (⟨[], [' '], false⟩ : PageNode)).foldl pagStep ⟨[], [], 0⟩).height
        + estimateHeight ⟨[], ['x'], false⟩ > MAX_PAGE_HEIGHT
    ∧ isOnlyHeading (trimStr
        ((List.replicate 36 (⟨[], [' '], false⟩ : PageNode)).foldl pagStep
          ⟨[], [], 0⟩).cur) = false
    ∧ (pagStep ((List.replicate 36 (⟨[], [' '], false⟩ : PageNode)).foldl pagStep
          ⟨[], [], 0⟩) ⟨[], ['x'], false⟩).sections
      = ((List.replicate 36 (⟨[], [' '], false⟩ : PageNode)).foldl pagStep
          ⟨[], [], 0⟩).sections := by
  decide

/-- C6 (amended): an `H2` node flushes the accumulated page and starts the
new page with itself exactly when the accumulated content is non-blank
(otherwise it is simply appended); any other node flushes exactly when the
estimated height budget would be exceeded AND the accumulated content is
non-blank AND the accumulated content is not only a heading; and no emitted
page is blank. -/
theorem pagination_flush_policy :
    (∀ (st : PagState) (n : PageNode), n.tag = "H2".data → trimStr st.cur ≠ [] →
        pagStep st n = ⟨st.sections ++ [st.cur], n.html, estimateHeight n⟩)
    ∧ (∀ (st : PagState) (n : PageNode), n.tag = "H2".data → trimStr st.cur = [] →
        pagStep st n = ⟨st.sections, st.cur ++ n.html, st.height + estimateHeight n⟩)
    ∧ (∀ (st : PagState) (n : PageNode), n.tag ≠ "H2".data →
        ((pagStep st n).sections = st.sections ++ [st.cur] ↔
          (st.height + estimateHeight n > MAX_PAGE_HEIGHT ∧ trimStr st.cur ≠ [] ∧
            isOnlyHeading (trimStr st.cur) = false)))
    ∧ (∀ (nodes : List PageNode), ∀ p ∈ paginate nodes, trimStr p ≠ []) := by
  refine ⟨?_, ?_, ?_, ?_⟩
  · intro st n h1 h2
    unfold pagStep
    rw [if_pos ⟨h1, h2⟩]
  · intro st n h1 h2
    unfold pagStep
    rw [if_neg (fun hc => hc.2 h2), if_neg (fun hc => hc.2.1 h2)]
  · intro st n hne
    constructor
    · intro hflush
      unfold pagStep at hflush
      rw [if_neg (fun hc => hne hc.1)] at hflush
      by_cases hc : st.height + estimateHeight n > MAX_PAGE_HEIGHT ∧ trimStr st.cur ≠ [] ∧
          isOnlyHeading (trimStr st.cur) = false
      · exact hc
      · rw [if_neg hc] at hflush
        have h' : st.sections = st.sections ++ [st.cur] := hflush
        simp at h'
    · intro hc
      unfold pagStep
      rw [if_neg (fun hcc => hne hcc.1), if_pos hc]
  · intro nodes p hp
    unfold paginate at hp
    split at hp
    · next hcur =>
      rcases List.mem_append.1 hp with h | h
      · exact foldl_pag_sections nodes ⟨[], [], 0⟩ (by intro q hq; simp at hq) p h
      · rw [List.mem_singleton.1 h]
        exact hcur
    · exact foldl_pag_sections nodes ⟨[], [], 0⟩ (by intro q hq; simp at hq) p hp

/-- Witness for C6: an `H2` flush on a non-blank page, the overflow
biconditional at a concrete state, and a non-blank emitted page. -/
theorem pagination_flush_policy_witness :
    pagStep ⟨[], "<h2>A</h2>".data, 45⟩ ⟨"H2".data, "<h2>B</h2>".data, false⟩
      = ⟨[] ++ ["<h2>A</h2>".data], "<h2>B</h2>".data,
          estimateHeight ⟨"H2".data, "<h2>B</h2>".data, false⟩⟩
    ∧ ((pagStep ⟨[], "<p>a</p>".data, 870⟩ ⟨"P".data, "x".data, false⟩).sections
        = [] ++ ["<p>a</p>".data] ↔
        (870 + estimateHeight ⟨"P".data, "x".data, false⟩ > MAX_PAGE_HEIGHT ∧
          trimStr ("<p>a</p>".data) ≠ [] ∧
          isOnlyHeading (trimStr ("<p>a</p>".data)) = false))
    ∧ trimStr ("<p>a</p>".data) ≠ [] :=
  ⟨pagination_flush_policy.1 ⟨[], "<h2>A</h2>".data, 45⟩
      ⟨"H2".data, "<h2>B</h2>".data, false⟩ (by decide) (by decide),
   pagination_flush_policy.2.2.1 ⟨[], "<p>a</p>".data, 870⟩
      ⟨"P".data, "x".data, false⟩ (by decide),
   pagination_flush_policy.2.2.2 [⟨"P".data, "<p>a</p>".data, false⟩]
      ("<p>a</p>".data) (by decide)⟩

/-- C8: the Reference Resolver looks a reference up by its basename only:
with pairwise-distinct asset names, a resolved value is always the content
of the asset whose name equals the reference's basename (so never another
asset's content), and a directory prefix before the basename never changes
the result.  The resolver is a pure function of its two arguments, so it is
deterministic by construction. -/
theorem resolver_basename_lookup :
    (∀ (imgs : List ImageFile) (src : Str) (A : ImageFile) (v : Str),
        imgs.Pairwise (fun a b => a.name ≠ b.name) → A ∈ imgs →
        basename src = A.name → resolveImageSrc imgs src = some v → v = A.dataUrl)
    ∧ (∀ (imgs : List ImageFile) (pre name : Str), '/' ∉ name →
        resolveImageSrc imgs (pre ++ '/' :: name) = resolveImageSrc imgs name) := by
  constructor
  · intro imgs src A v hnd hA hbase hres
    unfold resolveImageSrc at hres
    rw [hbase] at hres
    by_cases hemp : A.name.isEmpty
    · rw [if_pos hemp] at hres
      simp at hres
    · rw [if_neg hemp] at hres
      rcases hfind : imageMapGet imgs A.name with _ | w
      · rw [hfind] at hres
        simp at hres
      · rw [hfind] at hres
        have hres' : (if w.isEmpty = true then none else some w) = some v := hres
        unfold imageMapGet at hfind
        rcases hf2 : imgs.reverse.find? (fun i => i.name == A.name) with _ | B
        · rw [hf2] at hfind
          simp at hfind
        · rw [hf2] at hfind
          have hBmem : B ∈ imgs := List.mem_reverse.1 (List.mem_of_find?_eq_some hf2)
          have hpB := List.find?_some hf2
          have hBname : B.name = A.name := by simpa using hpB
          have hBA : B = A := name_unique hnd hA hBmem hBname
          have hw : B.dataUrl = w := by
            simpa using hfind
          by_cases hwe : w.isEmpty
          · rw [if_pos hwe] at hres'
            simp at hres'
          · rw [if_neg hwe] at hres'
            rw [← Option.some.inj hres', ← hw, hBA]
  · intro imgs pre name h
    unfold resolveImageSrc
    rw [basename_append h, basename_no_slash h]

/-- Witness for C8: `images/shot.png` resolves to the content of the asset
named `shot.png`, and the `images/` prefix is invisible to resolution. -/
theorem resolver_basename_lookup_witness :
    ("D".data : Str) = (⟨"shot.png".data, "D".data⟩ : ImageFile).dataUrl
    ∧ resolveImageSrc [⟨"shot.png".data, "D".data⟩] ("images".data ++ '/' :: "shot.png".data)
      = resolveImageSrc [⟨"shot.png".data, "D".data⟩] ("shot.png".data) :=
  ⟨resolver_basename_lookup.1 [⟨"shot.png".data, "D".data⟩] ("images/shot.png".data)
      ⟨"shot.png".data, "D".data⟩ ("D".data) (by decide) (by decide) (by decide) (by decide),
   resolver_basename_lookup.2 [⟨"shot.png".data, "D".data⟩] ("images".data)
      ("shot.png".data) (by decide)⟩

/-- C9 (corrected), counterexample to the claim as stated: an empty
reference string renders as nothing at all — `if (!srcStr) return null` —
rather than as a visible placeholder. -/
theorem renderer_empty_src_cex :
    renderImg [⟨"a.png".data, "D".data⟩] [] [] = Rendered.nothing := by
  decide

/-- C9 (amended): for every NON-EMPTY reference string — including one
ending in a path separator — an unresolvable basename renders the visible
placeholder carrying that basename, and the renderer never renders nothing;
it is a total function, so it never throws.  An empty reference renders
nothing (see the counterexample). -/
theorem renderer_unresolved_placeholder (imgs : List ImageFile) (src alt : Str)
    (h : src ≠ []) :
    (imageMapGet imgs (basename src) = none →
      renderImg imgs src alt = Rendered.placeholder (basename src))
    ∧ renderImg imgs src alt ≠ Rendered.nothing := by
  have hemp : src.isEmpty = false := List.isEmpty_eq_false.2 h
  constructor
  · intro hget
    unfold renderImg
    rw [if_neg (by simp [hemp]), hget]
  · unfold renderImg
    rw [if_neg (by simp [hemp])]
    rcases hget : imageMapGet imgs (basename src) with _ | v
    · simp
    · show (if v.isEmpty = true then Rendered.placeholder (basename src)
        else Rendered.image v alt) ≠ Rendered.nothing
      by_cases hv : v.isEmpty
      · rw [if_pos hv]
        simp
      · rw [if_neg hv]
        simp

/-- Witness for C9: an unresolvable `images/b.png` renders the placeholder
carrying `b.png` and is not dropped. -/
theorem renderer_unresolved_placeholder_witness :
    renderImg [⟨"a.png".data, "D".data⟩] ("images/b.png".data) []
      = Rendered.placeholder (basename ("images/b.png".data))
    ∧ renderImg [⟨"a.png".data, "D".data⟩] ("images/b.png".data) [] ≠ Rendered.nothing :=
  ⟨(renderer_unresolved_placeholder [⟨"a.png".data, "D".data⟩] ("images/b.png".data) []
      (by decide)).1 (by decide),
   (renderer_unresolved_placeholder [⟨"a.png".data, "D".data⟩] ("images/b.png".data) []
      (by decide)).2⟩
